import Mathlib

/-!
Shallow embedding of `src/CompareGeneProfiles/cgp_fastaSequence.py` from the
multiPhATE2 repository: the `fasta` record class and the `multiFasta`
collection class.  Python strings are modelled as `List Char` (the claims only
exercise the ASCII fragment of the Python string operations, and the character
level helpers below model exactly that fragment).  Python methods that mutate
`self` are modelled as functions returning the updated record; methods that can
raise a Python exception are modelled with `Except`, the error value naming the
exception that the interpreter would raise.
-/

namespace CgpFasta

/-- Python strings, modelled as lists of characters. -/
abbrev Str := List Char

/-- The whitespace characters matched by the regex class `\s` (ASCII fragment):
space, tab, newline, vertical tab, form feed, carriage return. -/
def isSpace (c : Char) : Bool :=
  c == ' ' || c == '\t' || c == '\n' || c == '\x0b' || c == '\x0c' || c == '\r'

/-- The characters matched by the regex class `[0-9]`. -/
def isDigitAscii (c : Char) : Bool :=
  '0' ≤ c && c ≤ '9'

/-- ASCII fragment of the Python `str.lower` character map: the twenty six
uppercase ASCII letters are mapped to their lowercase counterparts, every other
character is returned unchanged. -/
def pyLowerChar (c : Char) : Char :=
  if c = 'A' then 'a' else if c = 'B' then 'b' else if c = 'C' then 'c' else
  if c = 'D' then 'd' else if c = 'E' then 'e' else if c = 'F' then 'f' else
  if c = 'G' then 'g' else if c = 'H' then 'h' else if c = 'I' then 'i' else
  if c = 'J' then 'j' else if c = 'K' then 'k' else if c = 'L' then 'l' else
  if c = 'M' then 'm' else if c = 'N' then 'n' else if c = 'O' then 'o' else
  if c = 'P' then 'p' else if c = 'Q' then 'q' else if c = 'R' then 'r' else
  if c = 'S' then 's' else if c = 'T' then 't' else if c = 'U' then 'u' else
  if c = 'V' then 'v' else if c = 'W' then 'w' else if c = 'X' then 'x' else
  if c = 'Y' then 'y' else if c = 'Z' then 'z' else c

/-- Python `str.lower`, applied characterwise. -/
def lower (s : Str) : Str := s.map pyLowerChar

/-- Decimal rendering `str(n)` of a Python non-negative integer. -/
def natStr (n : Nat) : Str := (Nat.repr n).toList

/-- Decimal rendering `str(i)` of a Python integer. -/
def intStr (i : Int) : Str := (toString i).toList

/-- The regex `p_extra = re.compile('(\s)|([0-9])|(\*)')`: true on the
characters removed from sequence text by `consolidate`. -/
def p_extra (c : Char) : Bool := isSpace c || isDigitAscii c || c == '*'

/-- Model of `re.search(p_header, line)` for `p_header = re.compile('^>(.*)')`: the
anchored search succeeds exactly when the line starts with the FASTA marker. -/
def p_header_found (line : Str) : Bool :=
  match line with
  | c :: _ => c == '>'
  | [] => false

/-- Model of the call of `p_up2space` (pattern `^\S*`) on a header.  Because
`\S*` also matches the empty string, this regex matches at position 0 of every
input, so the result is always `some` of the longest prefix made of
non-whitespace characters. -/
def p_up2space_match (s : Str) : Option Str :=
  some (s.takeWhile fun c => !(isSpace c))

/-- The `fasta` class: one FASTA sequence record.  Field for field the
attributes initialised by `fasta.__init__`. -/
structure fasta where
  header : Str
  cleanHeader : Str
  truncHeader : Str
  shortHeader : Str
  compoundHeader : Str
  blastHeader : Str
  sequentialHeader : Str
  customHeader : Str
  name : Str
  sequence : Str
  sequenceType : Str
  moleculeType : Str
  parentSequence : Str
  truncation : Nat
  annotationList : List Str
  paralogList : List Str
  startCodonCount : Nat
  codonStartLocs : List Nat
  start : Int
  «end» : Int
  parentName : Str
  parentStart : Int
  parentEnd : Int
  parentStrand : Str
  strand : Str
  nrHeader : Str
  nrGInumber : Str
  geneCallFile : Str
  geneCaller : Str
  geneCallRank : Nat
  nextFastaNumber : Nat
  order : Nat
  number : Nat
  pVOGassociationList : List Str
  pVOGcount : Nat
  contig : Str
deriving DecidableEq

/-- Constructor call `fasta()`, that is `fasta.__init__`. -/
def fasta.init : fasta where
  header := "unknown".toList
  cleanHeader := []
  truncHeader := []
  shortHeader := []
  compoundHeader := []
  blastHeader := []
  sequentialHeader := "hdr".toList
  customHeader := []
  name := "none".toList
  sequence := []
  sequenceType := "unknown".toList
  moleculeType := "unknown".toList
  parentSequence := []
  truncation := 15
  annotationList := []
  paralogList := []
  startCodonCount := 0
  codonStartLocs := []
  start := 0
  «end» := 0
  parentName := []
  parentStart := 0
  parentEnd := 0
  parentStrand := []
  strand := []
  nrHeader := []
  nrGInumber := []
  geneCallFile := "unknown".toList
  geneCaller := "unknown".toList
  geneCallRank := 0
  nextFastaNumber := 0
  order := 0
  number := 0
  pVOGassociationList := []
  pVOGcount := 0
  contig := "unknown".toList

/-- Method `fasta.assignType`: stores `mtype.lower()` when the label is one of the
recognised nucleotide or amino-acid synonyms, and `"unknown"` otherwise. -/
def fasta.assignType (self : fasta) (mtype : Str) : fasta :=
  if lower mtype = "nt".toList ∨ lower mtype = "nucl".toList ∨
      lower mtype = "nucleotide".toList then
    { self with sequenceType := lower mtype }
  else if lower mtype = "aa".toList ∨ lower mtype = "amino-acid".toList ∨
      lower mtype = "protein".toList ∨ lower mtype = "peptide".toList then
    { self with sequenceType := lower mtype }
  else
    { self with sequenceType := "unknown".toList }

/-- Method `fasta.assignHeader`: strips leading FASTA markers and recomputes every
derived header variant. -/
def fasta.assignHeader (self : fasta) (hdr : Str) : fasta :=
  let cleanHeader0 := hdr.dropWhile (fun c => c == '>')
  let header := cleanHeader0
  let blastHeader := cleanHeader0.takeWhile (fun c => !(c == ' '))
  let cleanHeader1 := cleanHeader0.map fun c => if c == ' ' then '_' else c
  let cleanHeader2 := cleanHeader1.filter fun c =>
    !(c == '(' || c == ')' || c == ';' || c == ':' || c == '?' || c == '.')
  let truncHeader := header.take self.truncation
  let sequentialHeader := self.moleculeType ++ '-' :: natStr self.order
  let shortHeader :=
    match p_up2space_match header with
    | some m => m
    | none => truncHeader
  let compoundHeader :=
    if self.parentSequence ≠ [] then header ++ '_' :: self.parentSequence
    else header
  { self with
      header := header
      blastHeader := blastHeader
      cleanHeader := cleanHeader2
      truncHeader := truncHeader
      sequentialHeader := sequentialHeader
      shortHeader := shortHeader
      compoundHeader := compoundHeader }

/-- Method `fasta.consolidate`: here `re.sub` with `p_extra` removes every whitespace
character, ASCII digit and asterisk from the stored sequence. -/
def fasta.consolidate (self : fasta) : fasta :=
  { self with sequence := self.sequence.filter fun c => !(p_extra c) }

/-- The string branch of `fasta.assignSequence`: lower-case the input, store
it, then `consolidate`. -/
def fasta.assignSequenceStr (self : fasta) (seq : Str) : fasta :=
  fasta.consolidate { self with sequence := lower seq }

/-- A dynamically typed Python argument: a string, a list of strings, or a
value of any other runtime type. -/
inductive PyVal where
  | str : Str → PyVal
  | list : List Str → PyVal
  | other : PyVal
deriving DecidableEq

/-- Method `fasta.assignSequence`: the string branch succeeds; the list branch
evaluates `''.join(seq.lower())`, and since a Python list object has no
`lower` attribute the interpreter raises `AttributeError` before anything is
joined; any other input returns `False`. -/
def fasta.assignSequence (self : fasta) (seq : PyVal) : Except Str (Bool × fasta) :=
  match seq with
  | .str s => .ok (true, self.assignSequenceStr s)
  | .list _ => .error "AttributeError".toList
  | .other => .ok (false, self)

/-- Method `fasta.getHeader`: returns the requested header variant with the FASTA
marker prepended; an unrecognised variant name only prints a warning and the
method returns `None`. -/
def fasta.getHeader (self : fasta) (hdrType : Str) : Option Str :=
  let headerType := lower hdrType
  if headerType = "full".toList then some ('>' :: self.header)
  else if headerType = "clean".toList then some ('>' :: self.cleanHeader)
  else if headerType = "trunc".toList then some ('>' :: self.truncHeader)
  else if headerType = "short".toList then some ('>' :: self.shortHeader)
  else if headerType = "compound".toList then some ('>' :: self.compoundHeader)
  else if headerType = "blast".toList then some ('>' :: self.blastHeader)
  else if headerType = "sequential".toList then some ('>' :: self.sequentialHeader)
  else if headerType = "custom".toList then some ('>' :: self.customHeader)
  else none

/-- Method `fasta.verifyProkaryoticStartCodon`: classifies the first three characters
of a non-empty sequence; an empty sequence falls off the end of the method and
Python returns `None`. -/
def fasta.verifyProkaryoticStartCodon (self : fasta) : Option Str :=
  if self.sequence ≠ [] then
    let testCodon := lower (self.sequence.take 3)
    if testCodon = "atg".toList then some "common".toList
    else if testCodon = "gtg".toList ∨ testCodon = "ttg".toList then
      some "alternate".toList
    else if testCodon = "att".toList ∨ testCodon = "ctg".toList then
      some "rare".toList
    else some "incorrect".toList
  else none

/-- The characterwise DNA complement used by `Bio.Seq.reverse_complement`:
Watson-Crick pairs and the IUPAC ambiguity codes, case preserved; `w`, `s`,
`n`, `x` and every other character are mapped to themselves. -/
def complementChar (c : Char) : Char :=
  match c with
  | 'a' => 't' | 'c' => 'g' | 'g' => 'c' | 't' => 'a' | 'u' => 'a'
  | 'A' => 'T' | 'C' => 'G' | 'G' => 'C' | 'T' => 'A' | 'U' => 'A'
  | 'm' => 'k' | 'r' => 'y' | 'y' => 'r' | 'k' => 'm'
  | 'M' => 'K' | 'R' => 'Y' | 'Y' => 'R' | 'K' => 'M'
  | 'v' => 'b' | 'h' => 'd' | 'd' => 'h' | 'b' => 'v'
  | 'V' => 'B' | 'H' => 'D' | 'D' => 'H' | 'B' => 'V'
  | c => c

/-- Method `fasta.reverseComplement`: guarded on the lower-cased sequence type being
`nt`; on success the stored sequence is replaced by
`Seq(self.sequence).reverse_complement()`, otherwise the record is returned
unchanged with result `False`. -/
def fasta.reverseComplement (self : fasta) : Bool × fasta :=
  if lower self.sequenceType = "nt".toList then
    (true, { self with sequence := (self.sequence.map complementChar).reverse })
  else
    (false, self)

/-- Model of `list(range(start, stop, step))` for a Python range with positive step:
`ceil((stop - start) / step)` values `start + i * step`.  (For `step = 0`
Python raises `ValueError`; this model is only used with a positive step.) -/
def pyRange (start stop step : Nat) : List Nat :=
  (List.range ((stop - start + step - 1) / step)).map fun i => start + i * step

/-- The loop body of `fasta.splitToList` applied to an explicit sequence:
slices `sequence[number:number+lineLength]` for each `number` produced by
`range(0, len(sequence), lineLength)`. -/
def chunkLines (sequence : Str) (lineLength : Nat) : List Str :=
  (pyRange 0 sequence.length lineLength).map fun number =>
    (sequence.drop number).take lineLength

/-- Method `fasta.splitToList`: returns the stored sequence cut into lines of
`lineLength` characters. -/
def fasta.splitToList (self : fasta) (lineLength : Nat) : List Str :=
  chunkLines self.sequence lineLength

/-- GFF constants from the module header. -/
def GFF_SOURCE : Str := "PhATE".toList

/-- Constant `GFF_SCORE = EMPTY_COL`. -/
def GFF_SCORE : Str := ".".toList

/-- Constant `GFF_PHASE = EMPTY_COL`. -/
def GFF_PHASE : Str := ".".toList

/-- Method `fasta.printData2file_GFF`: writes one 9-column GFF row to the file
handle; the accumulated written text is returned on success.  Three local
names (`GFF_start`, `GFF_end`, `GFF_identifier`) are only assigned inside
`if`/`elif` branches without an `else`, so reading them when no branch fired
raises `NameError`; they are modelled as `Option` locals whose unassigned read
is the corresponding error.  The annotation loop begins with `if fIRST:` while
the flag initialised at the top of the method is spelled `FIRST`, so the first
iteration of the loop — reached exactly when `annotationList` is non-empty —
raises `NameError` for the undefined name `fIRST` before anything further is
written.  The per-annotation text that the unreachable remainder of the loop
would emit is modelled from the spec: one `annotN=` field per annotation,
joined with semicolons (the annotation body itself is produced by the external
`cgp_annotation` class, absent from this repository). -/
def fasta.printData2file_GFF (self : fasta) (feature contigName : Str) :
    Except Str Str :=
  let tab : Str := "\t".toList
  let isCDS := self.moleculeType = "peptide".toList ∨
    self.moleculeType = "protein".toList ∨ self.sequenceType = "aa".toList ∨
    feature = "CDS".toList
  let isGene := self.moleculeType = "gene".toList ∨
    self.sequenceType = "nt".toList ∨ feature = "gene".toList
  let GFF_type : Str :=
    if isCDS then "CDS".toList else if isGene then "gene".toList
    else "unknown".toList
  let GFF_start? : Option Str :=
    if isCDS then some (intStr self.parentStart)
    else if isGene then some (intStr self.start) else none
  let GFF_end? : Option Str :=
    if isCDS then some (intStr self.parentEnd)
    else if isGene then some (intStr self.«end») else none
  let GFF_identifier? : Option Str :=
    if self.moleculeType = "peptide".toList ∨
        self.moleculeType = "protein".toList ∨
        self.sequenceType = "aa".toList then
      some ("ID=".toList ++ self.header ++ "_cds".toList)
    else if self.moleculeType = "gene".toList ∨
        self.sequenceType = "nt".toList then
      some ("ID=".toList ++ self.header)
    else none
  match GFF_start? with
  | none => .error "NameError: GFF_start".toList
  | some GFF_start =>
    match GFF_end? with
    | none => .error "NameError: GFF_end".toList
    | some GFF_end =>
      let out1 := contigName ++ tab ++ GFF_SOURCE ++ tab ++ GFF_type ++ tab ++
        GFF_start ++ tab ++ GFF_end ++ tab ++ GFF_SCORE ++ tab ++
        self.strand ++ tab ++ GFF_PHASE ++ tab
      match GFF_identifier? with
      | none => .error "NameError: GFF_identifier".toList
      | some GFF_identifier =>
        let out2 := GFF_identifier ++ ";".toList
        match self.annotationList with
        | [] => .ok (out1 ++ out2 ++ "\n".toList)
        | _ :: _ => .error "NameError: fIRST".toList

/-- The `multiFasta` class: an ordered list of `fasta` records. -/
structure multiFasta where
  fastaList : List fasta
  annotationList : List Str
  filename : Str
  moleculeType : Str
  contig : Str
  parentName : Str
deriving DecidableEq

/-- Constructor call `multiFasta()`, that is `multiFasta.__init__`. -/
def multiFasta.init : multiFasta where
  fastaList := []
  annotationList := []
  filename := "unknown".toList
  moleculeType := "unknown".toList
  contig := "unknown".toList
  parentName := []

/-- Method `multiFasta.addFasta`: stamps the new record with `order` equal to the new
list length and the collection molecule type, then appends it. -/
def multiFasta.addFasta (self : multiFasta) (newFa : fasta) : multiFasta :=
  let newFa := { newFa with
    order := self.fastaList.length + 1
    moleculeType := self.moleculeType }
  { self with fastaList := self.fastaList ++ [newFa] }

/-- State of the `for line in lines` loop inside `multiFasta.addFastas`. -/
structure AddFastasState where
  mf : multiFasta
  sequence : Str
  header : Str
  numberAdded : Nat

/-- One record creation inside `multiFasta.addFastas`: build a fresh `fasta`,
stamp molecule type and running order, assign header, sequence (always a
string here) and type, and append via `addFasta`. -/
def addFastasEmit (st : AddFastasState) (mtype : Str) : AddFastasState :=
  let newFasta := fasta.init
  let newFasta := { newFasta with moleculeType := st.mf.moleculeType }
  let numberAdded := st.numberAdded + 1
  let newFasta := { newFasta with order := numberAdded }
  let newFasta := newFasta.assignHeader st.header
  let newFasta := newFasta.assignSequenceStr st.sequence
  let newFasta := newFasta.assignType mtype
  { st with mf := st.mf.addFasta newFasta, numberAdded := numberAdded }

/-- The `for line in lines` loop of `multiFasta.addFastas`: a header line
flushes the block accumulated so far as a new record, any other line is
appended to the running sequence text. -/
def addFastasLoop (mtype : Str) : List Str → AddFastasState → AddFastasState
  | [], st => st
  | line :: rest, st =>
    if p_header_found line then
      let st := addFastasEmit st mtype
      addFastasLoop mtype rest { st with sequence := [], header := line }
    else
      addFastasLoop mtype rest { st with sequence := st.sequence ++ line }

/-- Method `multiFasta.addFastas`: splits the raw lines into header-delimited blocks
and appends one record per block; after the final record is appended the
source increments `numberAdded` once more before returning it. -/
def multiFasta.addFastas (self : multiFasta) (lines : List Str) (mtype : Str) :
    multiFasta × Nat :=
  match lines with
  | [] => (self, 0)
  | header :: rest =>
    let st := addFastasLoop mtype rest
      { mf := self, sequence := [], header := header, numberAdded := 0 }
    let st := addFastasEmit st mtype
    (st.mf, st.numberAdded + 1)

/-- Method `multiFasta.deleteFasta`: removes the first record equal to the argument;
returns whether a removal happened. -/
def multiFasta.deleteFasta (self : multiFasta) (oldFasta : fasta) :
    multiFasta × Bool :=
  if self.fastaList.contains oldFasta then
    ({ self with fastaList := self.fastaList.erase oldFasta }, true)
  else
    (self, false)

/-- The loop of `multiFasta.renumber` with its running counter. -/
def renumberLoop (newOrder : Nat) : List fasta → List fasta
  | [] => []
  | fa :: rest =>
    let newOrder := newOrder + 1
    { fa with order := newOrder } :: renumberLoop newOrder rest

/-- Method `multiFasta.renumber`: reassigns `order` 1..N in current list order. -/
def multiFasta.renumber (self : multiFasta) : multiFasta :=
  { self with fastaList := renumberLoop 0 self.fastaList }

/-- The twenty six uppercase ASCII letters; a sequence is entirely lowercase
exactly when none of its alphabetic characters belongs to this list. -/
def upperChars : List Char :=
  ['A', 'B', 'C', 'D', 'E', 'F', 'G', 'H', 'I', 'J', 'K', 'L', 'M',
   'N', 'O', 'P', 'Q', 'R', 'S', 'T', 'U', 'V', 'W', 'X', 'Y', 'Z']

/-- Lowering a character never yields an uppercase ASCII letter. -/
theorem pyLowerChar_not_upper (c : Char) : pyLowerChar c ∉ upperChars := by
  by_cases hc : c ∈ upperChars
  · simp only [upperChars, List.mem_cons, List.not_mem_nil, or_false] at hc
    rcases hc with rfl | rfl | rfl | rfl | rfl | rfl | rfl | rfl | rfl | rfl |
      rfl | rfl | rfl | rfl | rfl | rfl | rfl | rfl | rfl | rfl | rfl | rfl |
      rfl | rfl | rfl | rfl
    all_goals decide
  · have e : pyLowerChar c = c := by
      unfold pyLowerChar
      repeat rw [if_neg (fun h => hc (by rw [h]; decide))]
    rw [e]; exact hc

/-- Orders produced by the `renumber` loop are consecutive from the counter. -/
theorem renumberLoop_map_order (l : List fasta) :
    ∀ n, (renumberLoop n l).map fasta.order = List.range' (n + 1) l.length := by
  induction l with
  | nil => intro n; rfl
  | cons fa rest ih =>
    intro n
    simp [renumberLoop, List.range'_succ, ih]

/-- Chunking the empty sequence yields no lines. -/
theorem chunkLines_nil (L : Nat) : chunkLines [] L = [] := by
  unfold chunkLines pyRange
  cases L with
  | zero => decide
  | succ n =>
    simp [Nat.div_eq_of_lt (Nat.lt_succ_self n)]

/-- Arithmetic step behind peeling one chunk off the front: the ceiling
division counting the chunks of a non-empty sequence decreases by one when
`L` characters are removed. -/
theorem ceil_succ (L m : Nat) (hL : 0 < L) (hm : 0 < m) :
    (m + L - 1) / L = (m - L + L - 1) / L + 1 := by
  rcases Nat.le_total m L with h | h
  · have h1 : m - L = 0 := Nat.sub_eq_zero_of_le h
    have h2 : (0 + L - 1) / L = 0 := by
      cases L with
      | zero => decide
      | succ n => simp [Nat.div_eq_of_lt (Nat.lt_succ_self n)]
    rw [h1, h2]
    apply Nat.div_eq_of_lt_le <;> omega
  · have h1 : m - L + L - 1 = m - 1 := by omega
    have h2 : m + L - 1 = (m - 1) + L := by omega
    rw [h1, h2, Nat.add_div_right _ hL]

/-- Unfolding lemma: chunking a non-empty sequence takes the first `L`
characters as the first line and chunks the rest. -/
theorem chunkLines_cons (s : Str) (L : Nat) (hL : 0 < L) (hs : s ≠ []) :
    chunkLines s L = s.take L :: chunkLines (s.drop L) L := by
  have hm : 0 < s.length := List.length_pos.mpr hs
  unfold chunkLines pyRange
  rw [List.length_drop]
  simp only [Nat.sub_zero]
  rw [ceil_succ L s.length hL hm, List.range_succ_eq_map]
  simp only [List.map_cons, List.map_map]
  congr 1
  · simp
  · apply List.map_congr_left
    intro i hi
    simp only [Function.comp_apply, Nat.succ_eq_add_one, List.drop_drop,
      Nat.zero_add]
    congr 2
    ring

/-- Concatenating the chunks of a sequence restores the sequence. -/
theorem chunkLines_flatten (L : Nat) (hL : 0 < L) :
    ∀ (N : Nat) (s : Str), s.length ≤ N → (chunkLines s L).flatten = s := by
  intro N
  induction N with
  | zero =>
    intro s hs
    have h : s = [] := List.eq_nil_of_length_eq_zero (Nat.le_zero.mp hs)
    subst h
    rw [chunkLines_nil]
    rfl
  | succ N ih =>
    intro s hs
    by_cases h : s = []
    · subst h; rw [chunkLines_nil]; rfl
    · rw [chunkLines_cons s L hL h, List.flatten_cons,
        ih (s.drop L) (by rw [List.length_drop]; omega),
        List.take_append_drop]

/-- Every chunk except possibly the last has exactly `L` characters. -/
theorem chunkLines_dropLast_length (L : Nat) (hL : 0 < L) :
    ∀ (N : Nat) (s : Str), s.length ≤ N →
      ∀ fr ∈ (chunkLines s L).dropLast, fr.length = L := by
  intro N
  induction N with
  | zero =>
    intro s hs fr hfr
    have h : s = [] := List.eq_nil_of_length_eq_zero (Nat.le_zero.mp hs)
    subst h
    rw [chunkLines_nil] at hfr
    simp at hfr
  | succ N ih =>
    intro s hs fr hfr
    by_cases h : s = []
    · subst h; rw [chunkLines_nil] at hfr; simp at hfr
    · rw [chunkLines_cons s L hL h] at hfr
      by_cases h2 : chunkLines (s.drop L) L = []
      · rw [h2] at hfr
        simp at hfr
      · rw [List.dropLast_cons_of_ne_nil h2] at hfr
        rcases List.mem_cons.mp hfr with heq | hfr2
        · subst heq
          have hdrop : s.drop L ≠ [] := fun hc =>
            h2 (by rw [hc]; exact chunkLines_nil L)
          have hlen : L < s.length := by
            rcases Nat.lt_or_ge L s.length with hlt | hge
            · exact hlt
            · exact absurd (List.drop_eq_nil_of_le hge) hdrop
          simp [List.length_take]
          omega
        · exact ih (s.drop L) (by rw [List.length_drop]; omega) fr hfr2

/-- C1: ingesting a well-formed 3-record FASTA block into an empty collection
with `addFastas` creates records whose `order` fields are 1, 2, 3 in
encounter order — but the method returns 4, not 3: `numberAdded` is
incremented once more after the final record has been appended, so the claim
that `addFastas` returns the number of records created fails on the code. -/
theorem addFastas_three_records_returns_four :
    (multiFasta.addFastas multiFasta.init
        [">h1".toList, "atg".toList, ">h2".toList, "ccc".toList,
         ">h3".toList, "ggg".toList] "nt".toList).2 = 4 ∧
      ((multiFasta.addFastas multiFasta.init
        [">h1".toList, "atg".toList, ">h2".toList, "ccc".toList,
         ">h3".toList, "ggg".toList] "nt".toList).1.fastaList.map fasta.order)
        = [1, 2, 3] :=
  ⟨by decide, by decide⟩

/-- C2: `assignSequence` returns success for a single string and failure for
an argument that is neither a string nor a list, but on a list of strings it
does not return success: the source evaluates `seq.lower()` on the list
object, which raises `AttributeError`, contradicting the claim that the
method returns a boolean for every input and never raises a fault. -/
theorem assignSequence_shape_behaviour :
    (∀ (f : fasta) (s : Str),
        ∃ g, f.assignSequence (PyVal.str s) = Except.ok (true, g)) ∧
      fasta.assignSequence fasta.init
          (PyVal.list ["atg".toList, "ccc".toList])
        = Except.error "AttributeError".toList ∧
      ∀ f : fasta, f.assignSequence PyVal.other = Except.ok (false, f) :=
  ⟨fun f s => ⟨f.assignSequenceStr s, rfl⟩, rfl, fun _ => rfl⟩

/-- C3: for every record with a non-empty annotation list, `printData2file_GFF`
does not complete: the annotation loop immediately reads the undefined name
`fIRST` (the flag was initialised as `FIRST`), so the method raises
`NameError` instead of writing the `annotN=` attribute fields. -/
theorem printData2file_GFF_annotations_raise (f : fasta)
    (feature contigName : Str) (h : f.annotationList ≠ []) :
    ∃ e, f.printData2file_GFF feature contigName = Except.error e := by
  unfold fasta.printData2file_GFF
  dsimp only
  split
  · exact ⟨_, rfl⟩
  · split
    · exact ⟨_, rfl⟩
    · split
      · exact ⟨_, rfl⟩
      · split
        · next heq => exact absurd heq h
        · exact ⟨_, rfl⟩

/-- Witness for C3: a concrete nucleotide record carrying one annotation makes
`printData2file_GFF` raise. -/
theorem printData2file_GFF_annotations_raise_witness :
    ∃ e, fasta.printData2file_GFF
        { fasta.init with
            header := "gene1".toList
            sequenceType := "nt".toList
            strand := "+".toList
            annotationList := ["hypothetical protein".toList] }
        "gene".toList "contig1".toList = Except.error e :=
  printData2file_GFF_annotations_raise _ _ _ (by decide)

/-- C4 counterexample: for the 20-character whitespace-free header
`abcdefghijklmnopqrst`, the claim predicts that `getHeader("short")` returns
the marker followed by the 15-character truncated header, but the code
returns the entire header: the short-header pattern always matches, so the
truncated-header fallback is never taken. -/
theorem getHeader_short_no_whitespace_cex :
    (fasta.assignHeader fasta.init "abcdefghijklmnopqrst".toList).getHeader
        "short".toList
      ≠ some ('>' :: "abcdefghijklmnopqrst".toList.take 15) ∧
      (fasta.assignHeader fasta.init "abcdefghijklmnopqrst".toList).getHeader
        "short".toList
      = some ('>' :: "abcdefghijklmnopqrst".toList) :=
  ⟨by decide, by decide⟩

/-- C4 (amended): after `assignHeader`, `getHeader("short")` returns the
marker followed by exactly the maximal whitespace-free prefix of the stored
header — the substring up to but not including the first whitespace character
when one is present, and the entire header otherwise; the truncated header is
never used. -/
theorem getHeader_short_amended (f : fasta) (hdr : Str) :
    (f.assignHeader hdr).getHeader "short".toList
      = some ('>' ::
          (hdr.dropWhile (fun c => c == '>')).takeWhile (fun c => !(isSpace c))) :=
  rfl

/-- C5: `assignType` stores the lower-cased input label for every recognised
synonym and `unknown` for everything else; it does not canonicalise: the
synonym `nucleotide` is stored as `nucleotide`, not as the canonical tag
`nt`, contradicting the claim (and the field documentation in the source,
which says the stored type is `nt` or `aa`). -/
theorem assignType_stores_lowercased_label :
    (fasta.assignType fasta.init "nucleotide".toList).sequenceType
        = "nucleotide".toList ∧
      (fasta.assignType fasta.init "NUCL".toList).sequenceType = "nucl".toList ∧
      (fasta.assignType fasta.init "Protein".toList).sequenceType
        = "protein".toList ∧
      (fasta.assignType fasta.init "nt".toList).sequenceType = "nt".toList ∧
      (fasta.assignType fasta.init "AA".toList).sequenceType = "aa".toList ∧
      (fasta.assignType fasta.init "dna".toList).sequenceType
        = "unknown".toList ∧
      "nucleotide".toList ≠ "nt".toList := by
  decide

/-- C6: on a record whose sequence type is `nt`, `reverseComplement` reports
success and replaces the sequence by its reverse complement — position `i` of
the result is the complement of position `length - 1 - i` of the original,
with the Watson-Crick pairing a-t and c-g — in particular `atgc` becomes
`gcat`; on a record of type `aa` it reports failure and leaves the record
unchanged. -/
theorem reverseComplement_spec :
    (∀ f : fasta, f.sequenceType = "nt".toList →
        (f.reverseComplement.1 = true ∧
         f.reverseComplement.2.sequence.length = f.sequence.length ∧
         ∀ i, i < f.sequence.length →
           f.reverseComplement.2.sequence[i]? =
             (f.sequence[f.sequence.length - 1 - i]?).map complementChar)) ∧
      (fasta.reverseComplement
        { fasta.init with sequenceType := "nt".toList,
                          sequence := "atgc".toList }).2.sequence
        = "gcat".toList ∧
      (complementChar 'a' = 't' ∧ complementChar 't' = 'a' ∧
       complementChar 'c' = 'g' ∧ complementChar 'g' = 'c') ∧
      ∀ f : fasta, f.sequenceType = "aa".toList →
        f.reverseComplement = (false, f) := by
  refine ⟨?_, by decide, by decide, ?_⟩
  · intro f hf
    have hcond : lower f.sequenceType = "nt".toList := by rw [hf]; decide
    refine ⟨by simp [fasta.reverseComplement, hcond], ?_, ?_⟩
    · simp [fasta.reverseComplement, hcond]
    · intro i hi
      simp only [fasta.reverseComplement, hcond, if_pos]
      rw [List.getElem?_reverse (by simpa using hi)]
      simp [List.getElem?_map]
  · intro f hf
    unfold fasta.reverseComplement
    rw [if_neg (by rw [hf]; decide)]

/-- Witness for C6: the nucleotide guard succeeds on a concrete `nt` record
and the type guard rejects a concrete `aa` record unchanged. -/
theorem reverseComplement_spec_witness :
    (fasta.reverseComplement
      { fasta.init with sequenceType := "nt".toList,
                        sequence := "atgc".toList }).1 = true ∧
      fasta.reverseComplement { fasta.init with sequenceType := "aa".toList }
        = (false, { fasta.init with sequenceType := "aa".toList }) :=
  ⟨(reverseComplement_spec.1
      { fasta.init with sequenceType := "nt".toList,
                        sequence := "atgc".toList } rfl).1,
   reverseComplement_spec.2.2.2
      { fasta.init with sequenceType := "aa".toList } rfl⟩

/-- C7: for every string input, `assignSequence` succeeds and the stored
sequence afterwards contains no whitespace character, no ASCII digit, no
asterisk, and no uppercase letter — every alphabetic character in it is
lowercase. -/
theorem assignSequence_normalizes (f : fasta) (s : Str) :
    ∃ g, f.assignSequence (PyVal.str s) = Except.ok (true, g) ∧
      ∀ c ∈ g.sequence,
        isSpace c = false ∧ isDigitAscii c = false ∧ c ≠ '*' ∧
          c ∉ upperChars := by
  refine ⟨f.assignSequenceStr s, rfl, ?_⟩
  intro c hc
  have hc2 : c ∈ (lower s).filter (fun c => !(p_extra c)) := hc
  obtain ⟨hmem, hkeep⟩ := List.mem_filter.mp hc2
  rw [Bool.not_eq_true'] at hkeep
  simp only [p_extra, Bool.or_eq_false_iff, beq_eq_false_iff_ne, ne_eq]
    at hkeep
  obtain ⟨⟨hsp, hdg⟩, hast⟩ := hkeep
  obtain ⟨c0, _, rfl⟩ := List.mem_map.mp hmem
  exact ⟨hsp, hdg, hast, pyLowerChar_not_upper c0⟩

/-- C8: `verifyProkaryoticStartCodon` classifies the stored sequence by its
first three characters — `atgcccaaa` is `common`, `gtgcccaaa` is `alternate`,
`attcccaaa` is `rare`, `cccaaaaaa` is `incorrect` — and on an empty sequence
the method produces no explicit result (Python returns `None`). -/
theorem verifyProkaryoticStartCodon_spec :
    fasta.verifyProkaryoticStartCodon
        { fasta.init with sequence := "atgcccaaa".toList }
      = some "common".toList ∧
      fasta.verifyProkaryoticStartCodon
          { fasta.init with sequence := "gtgcccaaa".toList }
        = some "alternate".toList ∧
      fasta.verifyProkaryoticStartCodon
          { fasta.init with sequence := "attcccaaa".toList }
        = some "rare".toList ∧
      fasta.verifyProkaryoticStartCodon
          { fasta.init with sequence := "cccaaaaaa".toList }
        = some "incorrect".toList ∧
      ∀ f : fasta, f.sequence = [] → f.verifyProkaryoticStartCodon = none := by
  refine ⟨by decide, by decide, by decide, by decide, ?_⟩
  intro f hf
  unfold fasta.verifyProkaryoticStartCodon
  rw [if_neg (by simp [hf])]

/-- Witness for C8: the freshly constructed record has an empty sequence and
the classifier returns nothing on it. -/
theorem verifyProkaryoticStartCodon_spec_witness :
    fasta.verifyProkaryoticStartCodon fasta.init = none :=
  verifyProkaryoticStartCodon_spec.2.2.2.2 fasta.init rfl

/-- C9: on every collection state — hence after any prior sequence of add and
remove operations — `renumber` reassigns the `order` fields of the contained
records to exactly the contiguous sequence 1..N in current list order, where
N is the current list length. -/
theorem renumber_orders (mf : multiFasta) :
    (mf.renumber.fastaList.map fasta.order)
        = List.range' 1 mf.fastaList.length ∧
      mf.renumber.fastaList.length = mf.fastaList.length := by
  have h := renumberLoop_map_order mf.fastaList 0
  refine ⟨h, ?_⟩
  show (renumberLoop 0 mf.fastaList).length = mf.fastaList.length
  have h2 := congrArg List.length h
  simpa using h2

/-- C10: for every record and every positive line length `L`, concatenating
the fragments returned by `splitToList L` in order reproduces exactly the
stored sequence, and every fragment except possibly the last has length
exactly `L`. -/
theorem splitToList_spec (f : fasta) (L : Nat) (hL : 0 < L) :
    (f.splitToList L).flatten = f.sequence ∧
      ∀ fr ∈ (f.splitToList L).dropLast, fr.length = L :=
  ⟨chunkLines_flatten L hL f.sequence.length f.sequence le_rfl,
   chunkLines_dropLast_length L hL f.sequence.length f.sequence le_rfl⟩

/-- Witness for C10: the nine-character sequence `atgcccaaa` split at line
length 4 concatenates back to itself with all fragments but the last of
length 4. -/
theorem splitToList_spec_witness :
    0 < 4 ∧
      ((fasta.splitToList { fasta.init with sequence := "atgcccaaa".toList }
          4).flatten
          = ({ fasta.init with sequence := "atgcccaaa".toList } : fasta).sequence ∧
        ∀ fr ∈ (fasta.splitToList
            { fasta.init with sequence := "atgcccaaa".toList } 4).dropLast,
          fr.length = 4) :=
  ⟨by decide,
   splitToList_spec { fasta.init with sequence := "atgcccaaa".toList } 4
     (by decide)⟩

end CgpFasta
